import Mathlib

/-!
# Verification of the wastickers pack pipeline

Shallow embedding of the sticker-pack construction, partitioning and
validation pipeline of the `wastickers` repository, together with proofs
of the specification's testable properties.

Conventions of the embedding:
* Python machine floats that only ever hold exact small ratios are modelled
  by exact rationals (`ℚ`); Python's `round` (round-half-to-even) is
  modelled by `pyRound` on `ℚ`.
* `math.ceil(a / b)` on non-negative integers is modelled by
  `ceilN a b = (a + b - 1) / b` in `ℕ`.
* PIL images are modelled by `Img`: a width, a height and a total pixel
  function.  The bicubic interpolation kernel of `Image.resize` is kept
  abstract (a parameter `kern`); the one fact of Pillow's `resize` the code
  relies on — resizing to the current size returns a pixel-identical copy —
  is part of the `resizeIm` model, mirroring Pillow's own short-circuit.
* Zip archives are lists of (entry name, entry data) in written order;
  the filesystem is a map from path strings to files.
* PNG/WEBP encoding is kept abstract: `enc fmt im` is the raster the
  encoded bytes decode back to, `encSize fmt im` is the byte size of the
  encoded entry; theorems that depend on codec behaviour quantify over
  these and state the needed facts (dimension preservation, size bounds)
  as hypotheses.
-/

/-! ## Rounding and ceiling division -/

/-- Python's `round` on a (here: exact, non-negative) value:
round half to even. -/
def pyRound (q : ℚ) : ℤ :=
  let f := ⌊q⌋
  let r := q - (f : ℚ)
  if r < 1/2 then f
  else if 1/2 < r then f + 1
  else if f % 2 = 0 then f else f + 1

/-- Model of `math.ceil(a / b)` for naturals: ceiling division. -/
def ceilN (a b : ℕ) : ℕ := (a + b - 1) / b

/-! ## Chunking (`_chunks` in `_wastickers.py`)

`_chunks(lst, n)` yields the slices `lst[i : i+n]` for
`i in range(0, len(lst), n)`.  `range(0, L, n)` (with `n ≥ 1`) has
`ceil(L/n)` elements `0·n, 1·n, 2·n, …`, so the generator is the indexed
family of slices below. -/

def chunksPy (l : List α) (n : ℕ) : List (List α) :=
  (List.range (ceilN l.length n)).map (fun i => (l.drop (i * n)).take n)

/-- The chunk plan computed by `preprocess` (`_wastickers.py`): it receives
the sorted image paths and computes `num_chunks = math.ceil(len / 30)`,
`chunk_size = math.ceil(len / num_chunks)` and
`image_pack_paths = list(_chunks(image_paths, chunk_size))`.  (The upstream
glob/sort and the title/tray bookkeeping do not affect the partition.) -/
def preprocessChunks (image_paths : List α) : List (List α) :=
  let num_chunks := ceilN image_paths.length 30
  let chunk_size := ceilN image_paths.length num_chunks
  chunksPy image_paths chunk_size

/-! ## Images and `_squarify` -/

/-- An RGBA pixel value. -/
abbrev Pix := ℕ × ℕ × ℕ × ℕ

/-- The near-transparent background `(0, 0, 0, 1)` used by `_squarify`
(alpha 1/255, intentionally not fully transparent). -/
def bgPix : Pix := (0, 0, 0, 1)

/-- A decoded raster image: dimensions plus a total pixel function.
Coordinates outside `[0,width) × [0,height)` are never read by the
modelled operations. -/
@[ext]
structure Img where
  width : ℕ
  height : ℕ
  px : ℕ → ℕ → Pix

/-- The type of the abstract bicubic interpolation kernel of
`Image.resize`: from the source image and the target dimensions it
produces the new pixel function. -/
abbrev Kern := Img → ℕ → ℕ → ℕ → ℕ → Pix

/-- Model of `im.resize((w, h), Image.BICUBIC)`.  Mirrors Pillow's short-circuit:
resizing an image to its current size returns a pixel-identical copy. -/
def resizeIm (kern : Kern) (im : Img) (w h : ℕ) : Img :=
  if im.width = w ∧ im.height = h then im else ⟨w, h, kern im w h⟩

/-- Model of `Image.new("RGBA", (size, size), (0, 0, 0, 1))` followed by
`new_im.paste(im, (int((size - w) / 2), int((size - h) / 2)))`. -/
def pasteNew (im : Img) (size : ℕ) : Img :=
  let ox := (size - im.width) / 2
  let oy := (size - im.height) / 2
  { width := size, height := size,
    px := fun x y =>
      if ox ≤ x ∧ x < ox + im.width ∧ oy ≤ y ∧ y < oy + im.height then
        im.px (x - ox) (y - oy)
      else bgPix }

/-- Model of `round(w * ratio)` with `ratio = pixels / max(w, h)`
(from `_squarify`). -/
def scaledW (im : Img) (pixels : ℕ) : ℕ :=
  (pyRound ((im.width : ℚ) * ((pixels : ℚ) / ((max im.width im.height : ℕ) : ℚ)))).toNat

/-- Model of `round(h * ratio)` with `ratio = pixels / max(w, h)`
(from `_squarify`). -/
def scaledH (im : Img) (pixels : ℕ) : ℕ :=
  (pyRound ((im.height : ℚ) * ((pixels : ℚ) / ((max im.width im.height : ℕ) : ℚ)))).toNat

/-- Model of `_squarify(im, pixels)` from `wastickers/__init__.py`: scale so the
longer side is `pixels`, rounding each dimension independently, then paste
centred on a square transparent canvas of side `max(w, h)` (the scaled
dimensions). -/
def squarify (kern : Kern) (im : Img) (pixels : ℕ) : Img :=
  pasteNew (resizeIm kern im (scaledW im pixels) (scaledH im pixels))
    (max (scaledW im pixels) (scaledH im pixels))

/-! ## Strings, extensions, `pathlib` suffix/stem -/

/-- Model of `str.lower()` (per-character, as relevant for ASCII entry names). -/
def lowerL (l : List Char) : List Char := l.map Char.toLower

/-- Model of `s.endswith(suffix)` on character lists. -/
def endsL (suf l : List Char) : Bool :=
  decide (suf.length ≤ l.length ∧ l.drop (l.length - suf.length) = suf)

def webpExtL : List Char := ['.', 'w', 'e', 'b', 'p']

def pngExtL : List Char := ['.', 'p', 'n', 'g']

/-- Index of the last occurrence of `c` (Python `str.rfind`). -/
def rfindIdx (c : Char) : List Char → Option ℕ
  | [] => none
  | a :: l =>
    match rfindIdx c l with
    | some i => some (i + 1)
    | none => if a = c then some 0 else none

/-- The final path component (the part after the last `/`). -/
def lastComp (l : List Char) : List Char :=
  match rfindIdx '/' l with
  | some i => l.drop (i + 1)
  | none => l

/-- Model of `pathlib.PurePath(s).suffix`: the extension of the final component —
from the last dot, provided that dot is neither the leading character of
the component nor its last character. -/
def pySuffix (s : String) : String :=
  let comp := lastComp s.data
  match rfindIdx '.' comp with
  | some i => if 0 < i ∧ i < comp.length - 1 then String.mk (comp.drop i) else ""
  | none => ""

/-- Model of `pathlib.PurePath(s).stem`: the final component minus its suffix. -/
def pyStem (s : String) : String :=
  let comp := lastComp s.data
  match rfindIdx '.' comp with
  | some i => if 0 < i ∧ i < comp.length - 1 then String.mk (comp.take i) else String.mk comp
  | none => String.mk comp

/-- Python's `a or b` for strings (empty string is falsy). -/
def orStr (a b : String) : String := if a = "" then b else a

/-! ## Archives, files and the filesystem -/

inductive ImgFormat
  | png
  | webp
deriving DecidableEq

/-- The observable content of one zip entry: a text file, or an image blob
described by the format its bytes sniff as, the raster it decodes to, and
its (uncompressed) byte size. -/
inductive FileData
  | text (s : String)
  | image (fmt : ImgFormat) (im : Img) (sz : ℕ)

/-- Model of `ZipInfo.file_size`: the uncompressed byte count of an entry. -/
def FileData.size : FileData → ℕ
  | .text s => s.utf8ByteSize
  | .image _ _ sz => sz

/-- A zip archive: entries in written order (duplicates permitted). -/
abbrev Zip := List (String × FileData)

/-- Model of `ZipFile.namelist()`. -/
def namelist (z : Zip) : List String := z.map Prod.fst

/-- Model of `ZipFile.open(nm)` and `ZipFile.getinfo(nm)`: Python's zipfile resolves
a name to the *last* entry bearing it. -/
def zopen (z : Zip) (nm : String) : Option FileData :=
  (z.reverse.find? (fun e => e.1 == nm)).map Prod.snd

/-- A file on disk: a zip archive, or any other (non-zip) content. -/
inductive WFile
  | zipf (z : Zip)
  | raw (id : ℕ)

/-- The filesystem: a map from paths to files. -/
abbrev FS := String → Option WFile

/-! ## `StickerPack` (PackModel) -/

structure StickerPack where
  file_name : String
  title : String
  author : String
  tray_img : Option Img
  sticker_imgs : List (String × Img)

inductive PackErr
  | missingTitle
  | missingAuthor
  | invalidStickerCount (n : ℕ)
deriving DecidableEq

/-- Model of `StickerPack.check`: title non-empty, then author non-empty, then
sticker count within `[3, 30]`; first failure wins. -/
def StickerPack.check (p : StickerPack) : Except PackErr Unit :=
  if p.title = "" then .error .missingTitle
  else if p.author = "" then .error .missingAuthor
  else if 3 ≤ p.sticker_imgs.length ∧ p.sticker_imgs.length ≤ 30 then .ok ()
  else .error (.invalidStickerCount p.sticker_imgs.length)

/-! ## `StickerPack.save` (PackBuilder) -/

inductive SaveErr
  | invalidPack (e : PackErr)
  | indexError
  | destinationExists
deriving DecidableEq

/-- The state after a `save` call: its outcome, the (possibly mutated)
pack, and the (possibly extended) filesystem. -/
structure SaveOut where
  res : Except SaveErr Unit
  pack : StickerPack
  fs : FS

/-- Model of `file_name or self.file_name or self.title`. -/
def saveBase (fileName : Option String) (p : StickerPack) : String :=
  orStr (fileName.getD "") (orStr p.file_name p.title)

/-- The destination path `file_name + ".wastickers"` (the output folder is
the filesystem's implicit root here). -/
def savePath (fileName : Option String) (p : StickerPack) : String :=
  saveBase fileName p ++ ".wastickers"

/-- The sticker entries written by `save`: one entry per sticker, named by
its key verbatim, holding the WEBP encoding of the 512-squarified image. -/
def stickerEntries (kern : Kern) (enc : ImgFormat → Img → Img)
    (encSize : ImgFormat → Img → ℕ) (stickers : List (String × Img)) : Zip :=
  stickers.map (fun s =>
    (s.1, FileData.image .webp (enc .webp (squarify kern s.2 512))
      (encSize .webp (squarify kern s.2 512))))

/-- The archive written by `save`, in `writestr` order: `title.txt`,
`author.txt`, `tray.png` (PNG of the 96-squarified tray), stickers. -/
def buildZip (kern : Kern) (enc : ImgFormat → Img → Img)
    (encSize : ImgFormat → Img → ℕ) (p : StickerPack) (trayN : Img) : Zip :=
  ("title.txt", FileData.text p.title) ::
  ("author.txt", FileData.text p.author) ::
  ("tray.png", FileData.image .png (enc .png trayN) (encSize .png trayN)) ::
  stickerEntries kern enc encSize p.sticker_imgs

/-- The part of `save` from `zipfile.ZipFile(path, mode)` on: `mode = "x"`
(no overwrite) fails if the destination exists, before anything is
written; otherwise the archive is produced and `self.tray_img` now holds
the squarified tray. -/
def saveCore (kern : Kern) (enc : ImgFormat → Img → Img)
    (encSize : ImgFormat → Img → ℕ) (p : StickerPack) (t : Img)
    (path : String) (overwrite : Bool) (fs : FS) : SaveOut :=
  if overwrite = false ∧ (fs path).isSome then ⟨.error .destinationExists, p, fs⟩
  else
    let trayN := squarify kern t 96
    ⟨.ok (), { p with tray_img := some trayN },
      fun q => if q = path then some (.zipf (buildZip kern enc encSize p trayN)) else fs q⟩

/-- Model of `StickerPack.save`: run `check`, resolve the destination name, default
the tray image to the first sticker (mutating the pack), then write the
archive.  `indexError` models the `list(...)[0]` crash on an empty sticker
dict (unreachable after `check`). -/
def StickerPack.save (kern : Kern) (enc : ImgFormat → Img → Img)
    (encSize : ImgFormat → Img → ℕ) (p : StickerPack)
    (fileName : Option String) (overwrite : Bool) (fs : FS) : SaveOut :=
  match p.check with
  | .error e => ⟨.error (.invalidPack e), p, fs⟩
  | .ok _ =>
    let path := savePath fileName p
    match p.tray_img with
    | some t => saveCore kern enc encSize p t path overwrite fs
    | none =>
      match p.sticker_imgs with
      | [] => ⟨.error .indexError, p, fs⟩
      | s :: _ =>
        saveCore kern enc encSize { p with tray_img := some s.2 } s.2 path overwrite fs

/-- The tray image `save` will use: the assigned one, else the first
sticker image. -/
def trayOf (p : StickerPack) : Img :=
  match p.tray_img with
  | some t => t
  | none => (p.sticker_imgs.map Prod.snd).headD ⟨0, 0, fun _ _ => bgPix⟩

/-! ## `check_valid_wastickers` (PackValidator) -/

inductive VErr
  | badExtension
  | fileMissing
  | notZip
  | pngCountNotOne (k : ℕ)
  | trayMissing
  | trayUnreadable
  | trayWrongFormat
  | trayWrongSize (w h : ℕ)
  | trayTooLarge
  | webpCountBad (k : ℕ)
  | stickerUnreadable (nm : String)
  | stickerWrongFormat (nm : String)
  | stickerWrongSize (nm : String)
  | stickerTooLarge (nm : String)
  | titleMissing
  | authorMissing
deriving DecidableEq

/-- Model of `sum(name.lower().endswith(".png") for name in namelist)`. -/
def pngCount (z : Zip) : ℕ :=
  (namelist z).countP (fun nm => endsL pngExtL (lowerL nm.data))

/-- Model of `[name for name in namelist if name.endswith(".webp")]`
(case-sensitive, unlike the PNG count). -/
def webplist (z : Zip) : List String :=
  (namelist z).filter (fun nm => endsL webpExtL nm.data)

/-- The tray checks: PNG format, 96×96, under 50 KiB, in that order.
`trayUnreadable` models the (uncaught) PIL error on a non-image entry. -/
def checkTray (z : Zip) : Except VErr Unit :=
  match zopen z "tray.png" with
  | some (.image fmt im sz) =>
    if fmt = .png then
      if im.width = 96 ∧ im.height = 96 then
        if sz < 50 * 1024 then .ok () else .error .trayTooLarge
      else .error (.trayWrongSize im.width im.height)
    else .error .trayWrongFormat
  | _ => .error .trayUnreadable

/-- The per-sticker loop: for each `.webp` entry in namelist order, WEBP
format, 512×512, under 100 KiB, in that order. -/
def checkStickers (z : Zip) : List String → Except VErr Unit
  | [] => .ok ()
  | nm :: rest =>
    match zopen z nm with
    | some (.image fmt im sz) =>
      if fmt = .webp then
        if im.width = 512 ∧ im.height = 512 then
          if sz < 100 * 1024 then checkStickers z rest
          else .error (.stickerTooLarge nm)
        else .error (.stickerWrongSize nm)
      else .error (.stickerWrongFormat nm)
    | _ => .error (.stickerUnreadable nm)

/-- Model of `check_valid_wastickers(filepath)`: the ordered fail-fast rule chain.
`fileMissing` models the uncaught `FileNotFoundError` from `is_zipfile` on
a missing path. -/
def check_valid_wastickers (path : String) (fs : FS) : Except VErr Unit :=
  if pySuffix path = ".wastickers" then
    match fs path with
    | none => .error .fileMissing
    | some (.raw _) => .error .notZip
    | some (.zipf z) =>
      if pngCount z = 1 then
        if "tray.png" ∈ namelist z then
          match checkTray z with
          | .error e => .error e
          | .ok _ =>
            if 1 ≤ (webplist z).length ∧ (webplist z).length ≤ 30 then
              match checkStickers z (webplist z) with
              | .error e => .error e
              | .ok _ =>
                if "title.txt" ∈ namelist z then
                  if "author.txt" ∈ namelist z then .ok ()
                  else .error .authorMissing
                else .error .titleMissing
            else .error (.webpCountBad (webplist z).length)
        else .error .trayMissing
      else .error (.pngCountNotOne (pngCount z))
  else .error .badExtension

/-! ### The validator as an explicit ordered rule list -/

/-- The tray rules in listed order (format, dimensions, byte size). -/
def trayRules (z : Zip) : List (Bool × VErr) :=
  match zopen z "tray.png" with
  | some (.image fmt im sz) =>
    [(decide (fmt = .png), .trayWrongFormat),
     (decide (im.width = 96 ∧ im.height = 96), .trayWrongSize im.width im.height),
     (decide (sz < 50 * 1024), .trayTooLarge)]
  | _ => [(false, .trayUnreadable)]

/-- The rules for one sticker entry in listed order. -/
def stickerRules (z : Zip) (nm : String) : List (Bool × VErr) :=
  match zopen z nm with
  | some (.image fmt im sz) =>
    [(decide (fmt = .webp), .stickerWrongFormat nm),
     (decide (im.width = 512 ∧ im.height = 512), .stickerWrongSize nm),
     (decide (sz < 100 * 1024), .stickerTooLarge nm)]
  | _ => [(false, .stickerUnreadable nm)]

/-- All validator rules, in the order the specification lists them:
extension, archive, tray count/name, tray format/size/bytes, sticker
count then per-sticker format/size/bytes, metadata files. -/
def ruleList (path : String) (fs : FS) : List (Bool × VErr) :=
  (decide (pySuffix path = ".wastickers"), VErr.badExtension) ::
  match fs path with
  | none => [(false, .fileMissing)]
  | some (.raw _) => [(false, .notZip)]
  | some (.zipf z) =>
    (true, .notZip) ::
    (decide (pngCount z = 1), .pngCountNotOne (pngCount z)) ::
    (decide ("tray.png" ∈ namelist z), .trayMissing) ::
    (trayRules z ++
      (decide (1 ≤ (webplist z).length ∧ (webplist z).length ≤ 30),
        .webpCountBad (webplist z).length) ::
      ((webplist z).flatMap (stickerRules z) ++
       [(decide ("title.txt" ∈ namelist z), .titleMissing),
        (decide ("author.txt" ∈ namelist z), .authorMissing)]))

/-- Evaluate an ordered rule list fail-fast: the first rule whose
condition is false determines the error. -/
def firstFailure : List (Bool × VErr) → Except VErr Unit
  | [] => .ok ()
  | r :: rest => if r.1 then firstFailure rest else .error r.2

/-! ## `from_wastickers` (loading) -/

/-- Model of `zf.read(nm).decode("utf-8")` for a text entry. -/
def readText (z : Zip) (nm : String) : String :=
  match zopen z nm with
  | some (.text s) => s
  | _ => ""

/-- Model of `Image.open` plus `.load()` on an entry: the decoded raster. -/
def readImage (z : Zip) (nm : String) : Option Img :=
  match zopen z nm with
  | some (.image _ im _) => some im
  | _ => none

/-- Model of `from_wastickers(file_path)`: stem as file name, `title.txt` and
`author.txt` decoded as UTF-8, `tray.png` decoded, and one sticker per
`.webp` entry keyed by its entry name. -/
def from_wastickers (fname : String) (z : Zip) : StickerPack :=
  { file_name := pyStem fname,
    title := readText z "title.txt",
    author := readText z "author.txt",
    tray_img := readImage z "tray.png",
    sticker_imgs :=
      ((namelist z).filter (fun nm => endsL webpExtL nm.data)).map
        (fun nm => (nm, (readImage z nm).getD ⟨0, 0, fun _ _ => bgPix⟩)) }

/-! ## Concrete values used by witnesses and counterexamples -/

/-- A trivial interpolation kernel instantiating the abstract bicubic
parameter. -/
def kern0 : Kern := fun _ _ _ _ _ => bgPix

/-- A lossless stand-in codec. -/
def enc0 : ImgFormat → Img → Img := fun _ im => im

/-- A stand-in for encoded byte sizes. -/
def encSize0 : ImgFormat → Img → ℕ := fun _ _ => 0

/-- The empty filesystem. -/
def fs0 : FS := fun _ => none

/-- A filesystem holding exactly one archive. -/
def fsOf (path : String) (z : Zip) : FS :=
  fun q => if q = path then some (.zipf z) else none

def trayImg96 : Img := ⟨96, 96, fun _ _ => bgPix⟩

def stImg512 : Img := ⟨512, 512, fun _ _ => bgPix⟩

/-- A non-square sample image. -/
def imgWide : Img := ⟨200, 100, fun _ _ => bgPix⟩

def sampleTrayEntry : String × FileData := ("tray.png", .image .png trayImg96 4000)

def sampleStickerEntry : String × FileData := ("sticker.webp", .image .webp stImg512 9000)

/-- A container with valid metadata/tray and `k` (identical) compliant
`.webp` entries. -/
def sampleArchive (k : ℕ) : Zip :=
  [("title.txt", .text "Sample"), ("author.txt", .text "Author"), sampleTrayEntry] ++
    List.replicate k sampleStickerEntry

/-- A container whose tray and sticker checks pass but which lacks
`author.txt`. -/
def sampleNoAuthor : Zip :=
  [("title.txt", .text "Sample"), sampleTrayEntry, sampleStickerEntry]

/-- A valid pack whose sticker names all carry the `.webp` extension. -/
def packOk : StickerPack :=
  ⟨"", "T", "A", some stImg512,
    [("a.webp", stImg512), ("b.webp", stImg512), ("c.webp", stImg512)]⟩

/-- A valid pack with a sticker entry named `a.png`: building it yields an
archive with two `.png` entries. -/
def packBadNames : StickerPack :=
  ⟨"", "Pack", "Auth", some stImg512,
    [("a.png", stImg512), ("b.webp", stImg512), ("c.webp", stImg512)]⟩

/-- A valid pack whose sticker names carry no extension at all. -/
def packNoExt : StickerPack :=
  ⟨"", "Pack2", "Auth", some stImg512,
    [("a", stImg512), ("b", stImg512), ("c", stImg512)]⟩

/-- A pack with a single sticker (fails the build-time count check). -/
def packOne : StickerPack :=
  ⟨"", "T", "A", some stImg512, [("a.webp", stImg512)]⟩

/-- Extract the archive a successful `save` left at `path`. -/
def zOfSave (o : SaveOut) (path : String) : Zip :=
  match o.fs path with
  | some (.zipf z) => z
  | _ => []

/-! # Theorems -/

/-! ## Rounding -/

theorem pyRound_eq_ite (q : ℚ) :
    pyRound q = if q - (⌊q⌋ : ℚ) < 1/2 then ⌊q⌋
      else if 1/2 < q - (⌊q⌋ : ℚ) then ⌊q⌋ + 1
      else if ⌊q⌋ % 2 = 0 then ⌊q⌋ else ⌊q⌋ + 1 := rfl

theorem pyRound_intCast (n : ℤ) : pyRound (n : ℚ) = n := by
  unfold pyRound
  norm_num

theorem pyRound_natCast (n : ℕ) : pyRound (n : ℚ) = n := by
  have := pyRound_intCast (n : ℤ)
  rwa [Int.cast_natCast] at this

theorem pyRound_mem (q : ℚ) : pyRound q = ⌊q⌋ ∨ pyRound q = ⌊q⌋ + 1 := by
  rw [pyRound_eq_ite]
  split_ifs
  · exact Or.inl rfl
  · exact Or.inr rfl
  · exact Or.inl rfl
  · exact Or.inr rfl

theorem pyRound_nonneg (q : ℚ) (hq : 0 ≤ q) : 0 ≤ pyRound q := by
  have hf : (0 : ℤ) ≤ ⌊q⌋ := Int.floor_nonneg.2 hq
  rcases pyRound_mem q with h | h <;> omega

theorem pyRound_le_of_le_int (q : ℚ) (n : ℤ) (h : q ≤ (n : ℚ)) :
    pyRound q ≤ n := by
  have hfl : ⌊q⌋ ≤ n := by
    have := Int.floor_le_floor h
    rwa [Int.floor_intCast] at this
  rcases pyRound_mem q with hm | hm
  · omega
  · rcases lt_or_eq_of_le hfl with hlt | heq
    · omega
    · -- `⌊q⌋ = n` together with `q ≤ n` forces `q = n`, whose round is `n`
      have h1 : (n : ℚ) ≤ q := by
        have h2 := Int.floor_le q
        rwa [heq] at h2
      have hqn : q = (n : ℚ) := le_antisymm h h1
      rw [hqn, pyRound_intCast]

/-! ## Ceiling division -/

theorem ceilN_le_iff (n b k : ℕ) (hb : 0 < b) : ceilN n b ≤ k ↔ n ≤ k * b := by
  unfold ceilN
  rw [Nat.div_le_iff_le_mul_add_pred hb, Nat.mul_comm b k]
  omega

theorem le_mul_ceilN (n b : ℕ) (hb : 0 < b) : n ≤ ceilN n b * b :=
  (ceilN_le_iff n b (ceilN n b) hb).1 le_rfl

theorem ceilN_pos (n b : ℕ) (hn : 0 < n) (hb : 0 < b) : 0 < ceilN n b := by
  by_contra h
  have h0 : ceilN n b ≤ 0 := by omega
  have h1 := (ceilN_le_iff n b 0 hb).1 h0
  rw [Nat.zero_mul] at h1
  omega

theorem mul_pred_lt_ceilN (n b : ℕ) (hn : 0 < n) (hb : 0 < b) :
    (ceilN n b - 1) * b < n := by
  by_contra h
  have h1 : n ≤ (ceilN n b - 1) * b := by omega
  have h2 : ceilN n b ≤ ceilN n b - 1 := (ceilN_le_iff n b _ hb).2 h1
  have h3 := ceilN_pos n b hn hb
  omega

/-- The balanced-chunking identity used by `preprocess`: with
`c = ceil(n/30)` chunks of size `s = ceil(n/c)`, slicing in strides of `s`
yields exactly `c` chunks. -/
theorem ceilN_ceilN_eq (n : ℕ) (hn : 0 < n) :
    ceilN n (ceilN n (ceilN n 30)) = ceilN n 30 := by
  set c := ceilN n 30 with hc
  set s := ceilN n c with hs
  have hc0 : 0 < c := ceilN_pos n 30 hn (by norm_num)
  have hn30c : n ≤ c * 30 := (ceilN_le_iff n 30 c (by norm_num)).1 le_rfl
  have hn30c' : n ≤ 30 * c := by rw [Nat.mul_comm]; exact hn30c
  have hs30 : s ≤ 30 := (ceilN_le_iff n c 30 hc0).2 hn30c'
  have hs0 : 0 < s := ceilN_pos n c hn hc0
  have hnsc : n ≤ s * c := le_mul_ceilN n c hc0
  have hnsc' : n ≤ c * s := by rw [Nat.mul_comm]; exact hnsc
  have h30 : (c - 1) * 30 < n := mul_pred_lt_ceilN n 30 hn (by norm_num)
  have hle : ceilN n s ≤ c := (ceilN_le_iff n s c hs0).2 hnsc'
  have hge : c ≤ ceilN n s := by
    by_contra h
    have h1 : ceilN n s ≤ c - 1 := by omega
    have h2 : n ≤ (c - 1) * s := (ceilN_le_iff n s (c - 1) hs0).1 h1
    have h3 : (c - 1) * s ≤ (c - 1) * 30 := Nat.mul_le_mul_left _ hs30
    omega
  omega

/-! ## Chunking -/

theorem chunksPy_length (l : List α) (n : ℕ) :
    (chunksPy l n).length = ceilN l.length n := by
  simp [chunksPy]

theorem chunksPy_nil (n : ℕ) : chunksPy ([] : List α) n = [] := by
  have h : ceilN 0 n = 0 := by
    unfold ceilN
    rcases Nat.eq_zero_or_pos n with h | h
    · simp [h]
    · exact Nat.div_eq_of_lt (by omega)
  simp [chunksPy, h]

/-- Unfolding step: a non-empty list chunks into its first `n` elements
followed by the chunks of the rest. -/
theorem chunksPy_cons (l : List α) (n : ℕ) (hn : 0 < n) (hl : l ≠ []) :
    chunksPy l n = l.take n :: chunksPy (l.drop n) n := by
  have hlen : 0 < l.length := List.length_pos.2 hl
  have hceil : ceilN l.length n = ceilN (l.length - n) n + 1 := by
    unfold ceilN
    rcases Nat.le_total l.length n with h | h
    · have h0 : l.length - n = 0 := by omega
      rw [h0]
      have h1 : (l.length + n - 1) / n = 1 :=
        Nat.div_eq_of_lt_le (by omega) (by omega)
      have h2 : (0 + n - 1) / n = 0 := Nat.div_eq_of_lt (by omega)
      omega
    · have h3 : l.length + n - 1 = ((l.length - n) + n - 1) + n := by omega
      rw [h3, Nat.add_div_right _ hn]
  unfold chunksPy
  rw [List.length_drop, hceil, List.range_succ_eq_map]
  rw [List.map_cons, List.map_map]
  refine congrArg₂ List.cons (by simp) ?_
  refine List.map_congr_left fun i _ => ?_
  simp only [Function.comp_apply, List.drop_drop]
  have h4 : Nat.succ i * n = i * n + n := Nat.succ_mul i n
  rw [h4, Nat.add_comm (i * n) n]

theorem chunksPy_flatten (n : ℕ) (hn : 0 < n) (l : List α) :
    (chunksPy l n).flatten = l := by
  by_cases hl : l = []
  · subst hl; rw [chunksPy_nil]; rfl
  · rw [chunksPy_cons l n hn hl, List.flatten_cons,
      chunksPy_flatten n hn (l.drop n)]
    exact List.take_append_drop n l
termination_by l.length
decreasing_by
  have : 0 < l.length := List.length_pos.2 hl
  simp only [List.length_drop]
  omega

theorem chunksPy_sizes (l : List α) (n : ℕ) :
    ∀ ch ∈ chunksPy l n, ch.length ≤ n := by
  intro ch hch
  unfold chunksPy at hch
  obtain ⟨i, _, rfl⟩ := List.mem_map.1 hch
  simp [List.length_take]

/-- C2: for every non-empty ordered list of `n` images the computed chunks
concatenate back to the input (covering every image exactly once, in
order, consecutively), the number of chunks is exactly
`chunkCount = ceil(n/30)` (hence never exceeds it), every chunk is at most
`chunkSize = ceil(n/chunkCount)` long, and the four concrete instances
have the claimed sizes. -/
theorem preprocess_partition :
    (∀ {α : Type} (l : List α), l ≠ [] →
      (preprocessChunks l).flatten = l ∧
      (preprocessChunks l).length = ceilN l.length 30 ∧
      ∀ ch ∈ preprocessChunks l,
        ch.length ≤ ceilN l.length (ceilN l.length 30)) ∧
    (preprocessChunks (List.range 45)).map List.length = [23, 22] ∧
    (preprocessChunks (List.range 31)).map List.length = [16, 15] ∧
    (preprocessChunks (List.range 30)).map List.length = [30] ∧
    (preprocessChunks (List.range 1)).map List.length = [1] := by
  refine ⟨?_, by decide, by decide, by decide, by decide⟩
  intro α l hl
  have hn : 0 < l.length := List.length_pos.2 hl
  have hc0 : 0 < ceilN l.length 30 := ceilN_pos _ _ hn (by norm_num)
  have hs0 : 0 < ceilN l.length (ceilN l.length 30) :=
    ceilN_pos _ _ hn hc0
  refine ⟨chunksPy_flatten _ hs0 l, ?_, chunksPy_sizes _ _⟩
  unfold preprocessChunks
  rw [chunksPy_length]
  exact ceilN_ceilN_eq l.length hn

theorem preprocess_partition_witness :
    (preprocessChunks [0]).flatten = [0] ∧
    (preprocessChunks [(0 : ℕ)]).length = ceilN (List.length [(0 : ℕ)]) 30 ∧
    ∀ ch ∈ preprocessChunks [(0 : ℕ)],
      ch.length ≤ ceilN (List.length [(0 : ℕ)]) (ceilN (List.length [(0 : ℕ)]) 30) :=
  preprocess_partition.1 [(0 : ℕ)] (by decide)

/-! ## Image lemmas -/

theorem resizeIm_width (kern : Kern) (im : Img) (w h : ℕ) :
    (resizeIm kern im w h).width = w := by
  unfold resizeIm
  split
  · rename_i hc; exact hc.1
  · rfl

theorem resizeIm_height (kern : Kern) (im : Img) (w h : ℕ) :
    (resizeIm kern im w h).height = h := by
  unfold resizeIm
  split
  · rename_i hc; exact hc.2
  · rfl

theorem pasteNew_px_outside (im : Img) (size x y : ℕ)
    (hxy : size ≤ x ∨ size ≤ y) (hw : im.width ≤ size) (hh : im.height ≤ size) :
    (pasteNew im size).px x y = bgPix := by
  unfold pasteNew
  dsimp only
  rw [if_neg]
  rintro ⟨c1, c2, c3, c4⟩
  have d1 := Nat.div_le_self (size - im.width) 2
  have d2 := Nat.div_le_self (size - im.height) 2
  omega

/-- The larger of the two rounded scaled dimensions is exactly the
target: `round(max(w,h) * (N / max(w,h))) = N` and the other dimension
rounds to at most `N`. -/
theorem scaled_max_eq (im : Img) (N : ℕ)
    (hm : 0 < max im.width im.height) (hN : 0 < N) :
    max (scaledW im N) (scaledH im N) = N := by
  rcases Nat.le_total im.height im.width with hw | hw
  · have hmax : max im.width im.height = im.width := Nat.max_eq_left hw
    have hw0 : 0 < im.width := by rw [hmax] at hm; exact hm
    have hQ : ((im.width : ℚ)) ≠ 0 := Nat.cast_ne_zero.2 (by omega)
    have hW : scaledW im N = N := by
      unfold scaledW
      rw [hmax]
      have he : (im.width : ℚ) * ((N : ℚ) / (im.width : ℚ)) = (N : ℚ) := by
        field_simp
      rw [he, pyRound_natCast, Int.toNat_natCast]
    have hH : scaledH im N ≤ N := by
      unfold scaledH
      rw [hmax]
      have hle : (im.height : ℚ) * ((N : ℚ) / (im.width : ℚ)) ≤ (N : ℚ) := by
        have h1 : (im.height : ℚ) ≤ (im.width : ℚ) := by exact_mod_cast hw
        have h2 : 0 ≤ (N : ℚ) / (im.width : ℚ) := by positivity
        calc (im.height : ℚ) * ((N : ℚ) / (im.width : ℚ))
            ≤ (im.width : ℚ) * ((N : ℚ) / (im.width : ℚ)) :=
              mul_le_mul_of_nonneg_right h1 h2
          _ = (N : ℚ) := by field_simp
      have h3 : pyRound ((im.height : ℚ) * ((N : ℚ) / (im.width : ℚ))) ≤ (N : ℤ) :=
        pyRound_le_of_le_int _ (N : ℤ) (by exact_mod_cast hle)
      exact Int.toNat_le.2 h3
    rw [hW]
    exact Nat.max_eq_left hH
  · have hmax : max im.width im.height = im.height := Nat.max_eq_right hw
    have hh0 : 0 < im.height := by rw [hmax] at hm; exact hm
    have hQ : ((im.height : ℚ)) ≠ 0 := Nat.cast_ne_zero.2 (by omega)
    have hH : scaledH im N = N := by
      unfold scaledH
      rw [hmax]
      have he : (im.height : ℚ) * ((N : ℚ) / (im.height : ℚ)) = (N : ℚ) := by
        field_simp
      rw [he, pyRound_natCast, Int.toNat_natCast]
    have hW : scaledW im N ≤ N := by
      unfold scaledW
      rw [hmax]
      have hle : (im.width : ℚ) * ((N : ℚ) / (im.height : ℚ)) ≤ (N : ℚ) := by
        have h1 : (im.width : ℚ) ≤ (im.height : ℚ) := by exact_mod_cast hw
        have h2 : 0 ≤ (N : ℚ) / (im.height : ℚ) := by positivity
        calc (im.width : ℚ) * ((N : ℚ) / (im.height : ℚ))
            ≤ (im.height : ℚ) * ((N : ℚ) / (im.height : ℚ)) :=
              mul_le_mul_of_nonneg_right h1 h2
          _ = (N : ℚ) := by field_simp
      have h3 : pyRound ((im.width : ℚ) * ((N : ℚ) / (im.height : ℚ))) ≤ (N : ℤ) :=
        pyRound_le_of_le_int _ (N : ℤ) (by exact_mod_cast hle)
      exact Int.toNat_le.2 h3
    rw [hH]
    exact Nat.max_eq_right hW

theorem squarify_width (kern : Kern) (im : Img) (N : ℕ) :
    (squarify kern im N).width = max (scaledW im N) (scaledH im N) := rfl

theorem squarify_height (kern : Kern) (im : Img) (N : ℕ) :
    (squarify kern im N).height = max (scaledW im N) (scaledH im N) := rfl

theorem squarify_dims (kern : Kern) (im : Img) (N : ℕ)
    (hm : 0 < max im.width im.height) (hN : 0 < N) :
    (squarify kern im N).width = N ∧ (squarify kern im N).height = N := by
  rw [squarify_width, squarify_height]
  exact ⟨scaled_max_eq im N hm hN, scaled_max_eq im N hm hN⟩

theorem squarify_px_outside (kern : Kern) (im : Img) (N x y : ℕ)
    (hm : 0 < max im.width im.height) (hN : 0 < N) (hxy : N ≤ x ∨ N ≤ y) :
    (squarify kern im N).px x y = bgPix := by
  have hmax := scaled_max_eq im N hm hN
  refine pasteNew_px_outside _ _ x y ?_ ?_ ?_
  · rw [hmax]; exact hxy
  · rw [resizeIm_width, hmax]
    calc scaledW im N ≤ max (scaledW im N) (scaledH im N) := le_max_left _ _
      _ = N := hmax
  · rw [resizeIm_height, hmax]
    calc scaledH im N ≤ max (scaledW im N) (scaledH im N) := le_max_right _ _
      _ = N := hmax

/-- Squarifying an `N`-by-`N` image whose pixels outside the canvas are
already background is the identity. -/
theorem squarify_of_fixed (kern : Kern) (t : Img) (N : ℕ) (hN : 0 < N)
    (hw : t.width = N) (hh : t.height = N)
    (hout : ∀ x y, N ≤ x ∨ N ≤ y → t.px x y = bgPix) :
    squarify kern t N = t := by
  have hm : max t.width t.height = N := by rw [hw, hh, Nat.max_self]
  have hQ : ((N : ℚ)) ≠ 0 := Nat.cast_ne_zero.2 (by omega)
  have hsW : scaledW t N = N := by
    unfold scaledW
    rw [hm, hw]
    have he : (N : ℚ) * ((N : ℚ) / (N : ℚ)) = (N : ℚ) := by field_simp
    rw [he, pyRound_natCast, Int.toNat_natCast]
  have hsH : scaledH t N = N := by
    unfold scaledH
    rw [hm, hh]
    have he : (N : ℚ) * ((N : ℚ) / (N : ℚ)) = (N : ℚ) := by field_simp
    rw [he, pyRound_natCast, Int.toNat_natCast]
  unfold squarify
  rw [hsW, hsH, Nat.max_self]
  have hres : resizeIm kern t N N = t := by
    unfold resizeIm
    rw [if_pos ⟨hw, hh⟩]
  rw [hres]
  unfold pasteNew
  refine Img.ext ?_ ?_ ?_
  · dsimp only; exact hw.symm
  · dsimp only; exact hh.symm
  · dsimp only
    funext x y
    rw [hw, hh, Nat.sub_self, Nat.zero_div]
    by_cases hin : x < N ∧ y < N
    · rw [if_pos ⟨Nat.zero_le _, by omega, Nat.zero_le _, by omega⟩]
      simp
    · rw [if_neg]
      · exact (hout x y (by omega)).symm
      · rintro ⟨_, h2, _, h4⟩
        omega

/-- Squarifying twice equals squarifying once: `_squarify(·, N)` is idempotent. -/
theorem squarify_idem (kern : Kern) (im : Img) (N : ℕ)
    (hN : 0 < N) (hm : 0 < max im.width im.height) :
    squarify kern (squarify kern im N) N = squarify kern im N := by
  have hd := squarify_dims kern im N hm hN
  exact squarify_of_fixed kern _ N hN hd.1 hd.2
    (fun x y hxy => squarify_px_outside kern im N x y hm hN hxy)

/-! ## String and path lemmas -/

theorem rfindIdx_eq_none (c : Char) (l : List Char) (h : ∀ a ∈ l, a ≠ c) :
    rfindIdx c l = none := by
  induction l with
  | nil => rfl
  | cons a l ih =>
    have ha : a ≠ c := h a (List.mem_cons_self a l)
    have hrest : rfindIdx c l = none := ih (fun x hx => h x (List.mem_cons_of_mem a hx))
    simp [rfindIdx, hrest, ha]

theorem rfindIdx_append_right (c : Char) (l₁ l₂ : List Char) (j : ℕ)
    (h : rfindIdx c l₂ = some j) :
    rfindIdx c (l₁ ++ l₂) = some (l₁.length + j) := by
  induction l₁ with
  | nil => simpa using h
  | cons a l ih =>
    simp only [List.cons_append]
    simp [rfindIdx, ih]
    omega

theorem data_wastickers : (".wastickers" : String).data =
    ['.', 'w', 'a', 's', 't', 'i', 'c', 'k', 'e', 'r', 's'] := by decide

/-- The destination `base + ".wastickers"` has `pathlib` suffix
`.wastickers` whenever the base is non-empty and free of separators. -/
theorem pySuffix_wastickers (base : String)
    (h0 : base.data ≠ []) (h1 : '/' ∉ base.data) :
    pySuffix (base ++ ".wastickers") = ".wastickers" := by
  have hdata : (base ++ ".wastickers").data
      = base.data ++ (".wastickers" : String).data := String.data_append base _
  have hnone : rfindIdx '/' (base ++ ".wastickers").data = none := by
    apply rfindIdx_eq_none
    intro a ha heq
    rw [hdata] at ha
    rcases List.mem_append.1 ha with h | h
    · exact h1 (heq ▸ h)
    · rw [data_wastickers] at h
      subst heq
      revert h
      decide
  have hdot : rfindIdx '.' (base.data ++ (".wastickers" : String).data)
      = some (base.data.length + 0) := by
    apply rfindIdx_append_right
    rw [data_wastickers]
    decide
  have hlen : 0 < base.data.length := List.length_pos.2 h0
  unfold pySuffix lastComp
  rw [hnone]
  dsimp only
  rw [hdata, hdot]
  dsimp only
  have hcond : 0 < base.data.length + 0 ∧
      base.data.length + 0 < (base.data ++ (".wastickers" : String).data).length - 1 := by
    rw [List.length_append, data_wastickers]
    simp only [List.length_cons, List.length_nil]
    omega
  rw [if_pos hcond]
  rw [Nat.add_zero, List.drop_left]

/-! ## `StickerPack.check` and `save` lemmas -/

theorem check_eq_ok_iff (p : StickerPack) :
    p.check = .ok () ↔
      p.title ≠ "" ∧ p.author ≠ "" ∧
      3 ≤ p.sticker_imgs.length ∧ p.sticker_imgs.length ≤ 30 := by
  unfold StickerPack.check
  split_ifs with h1 h2 h3 <;> simp_all

theorem save_some (kern : Kern) (enc : ImgFormat → Img → Img)
    (encSize : ImgFormat → Img → ℕ) (p : StickerPack) (arg : Option String)
    (ow : Bool) (fs : FS) (t : Img)
    (hchk : p.check = .ok ()) (htr : p.tray_img = some t) :
    p.save kern enc encSize arg ow fs
      = saveCore kern enc encSize p t (savePath arg p) ow fs := by
  simp only [StickerPack.save, hchk, htr]

theorem save_none (kern : Kern) (enc : ImgFormat → Img → Img)
    (encSize : ImgFormat → Img → ℕ) (p : StickerPack) (arg : Option String)
    (ow : Bool) (fs : FS) (s : String × Img) (rest : List (String × Img))
    (hchk : p.check = .ok ()) (htr : p.tray_img = none)
    (hs : p.sticker_imgs = s :: rest) :
    p.save kern enc encSize arg ow fs
      = saveCore kern enc encSize { p with tray_img := some s.2 } s.2
          (savePath arg p) ow fs := by
  simp only [StickerPack.save, hchk, htr, hs]

theorem saveCore_blocked (kern : Kern) (enc : ImgFormat → Img → Img)
    (encSize : ImgFormat → Img → ℕ) (p : StickerPack) (t : Img)
    (path : String) (fs : FS) (h2 : (fs path).isSome) :
    saveCore kern enc encSize p t path false fs
      = ⟨.error .destinationExists, p, fs⟩ := by
  unfold saveCore
  rw [if_pos ⟨rfl, h2⟩]

theorem saveCore_not_blocked (kern : Kern) (enc : ImgFormat → Img → Img)
    (encSize : ImgFormat → Img → ℕ) (p : StickerPack) (t : Img)
    (path : String) (ow : Bool) (fs : FS)
    (hfree : ow = true ∨ fs path = none) :
    saveCore kern enc encSize p t path ow fs
      = ⟨.ok (), { p with tray_img := some (squarify kern t 96) },
          fun q => if q = path then
            some (.zipf (buildZip kern enc encSize p (squarify kern t 96)))
          else fs q⟩ := by
  unfold saveCore
  rw [if_neg]
  rintro ⟨h1, h2⟩
  rcases hfree with h | h
  · rw [h] at h1; cases h1
  · rw [h] at h2; cases h2

/-- C6: `StickerPack.check` tests, in order, title non-empty, author
non-empty, sticker count within `[3, 30]`; it reports the error of the
first failing test, and succeeds exactly when all three hold. -/
theorem check_fail_fast (p : StickerPack) :
    (p.title = "" → p.check = .error .missingTitle) ∧
    (p.title ≠ "" → p.author = "" → p.check = .error .missingAuthor) ∧
    (p.title ≠ "" → p.author ≠ "" →
      ¬(3 ≤ p.sticker_imgs.length ∧ p.sticker_imgs.length ≤ 30) →
      p.check = .error (.invalidStickerCount p.sticker_imgs.length)) ∧
    (p.check = .ok () ↔
      p.title ≠ "" ∧ p.author ≠ "" ∧
      3 ≤ p.sticker_imgs.length ∧ p.sticker_imgs.length ≤ 30) := by
  refine ⟨?_, ?_, ?_, check_eq_ok_iff p⟩
  · intro h1
    unfold StickerPack.check
    rw [if_pos h1]
  · intro h1 h2
    unfold StickerPack.check
    rw [if_neg h1, if_pos h2]
  · intro h1 h2 h3
    unfold StickerPack.check
    rw [if_neg h1, if_neg h2, if_neg (by tauto)]

theorem check_fail_fast_witness :
    packOne.check = .error (.invalidStickerCount packOne.sticker_imgs.length) :=
  (check_fail_fast packOne).2.2.1 (by decide) (by decide) (by decide)

/-- C7: `_squarify(im, N)` returns a square image whose side is
`max(round(w·N/max(w,h)), round(h·N/max(w,h)))`, the larger of the two
independently rounded scaled dimensions (which always equals `N`). -/
theorem squarify_side_formula (kern : Kern) (im : Img) (N : ℕ)
    (hw : 0 < im.width) (hh : 0 < im.height) (hN : 0 < N) :
    (squarify kern im N).width =
      max (pyRound ((im.width : ℚ) * (N : ℚ) / ((max im.width im.height : ℕ) : ℚ))).toNat
        (pyRound ((im.height : ℚ) * (N : ℚ) / ((max im.width im.height : ℕ) : ℚ))).toNat ∧
    (squarify kern im N).height = (squarify kern im N).width ∧
    (squarify kern im N).width = N := by
  have hm : 0 < max im.width im.height := lt_of_lt_of_le hw (le_max_left _ _)
  refine ⟨?_, rfl, (squarify_dims kern im N hm hN).1⟩
  rw [squarify_width]
  unfold scaledW scaledH
  rw [mul_div_assoc, mul_div_assoc]

theorem squarify_side_formula_witness :
    (squarify kern0 imgWide 96).width =
      max (pyRound ((imgWide.width : ℚ) * (96 : ℚ) / ((max imgWide.width imgWide.height : ℕ) : ℚ))).toNat
        (pyRound ((imgWide.height : ℚ) * (96 : ℚ) / ((max imgWide.width imgWide.height : ℕ) : ℚ))).toNat ∧
    (squarify kern0 imgWide 96).height = (squarify kern0 imgWide 96).width ∧
    (squarify kern0 imgWide 96).width = 96 :=
  squarify_side_formula kern0 imgWide 96 (by decide) (by decide) (by decide)

/-- C8: `_squarify(·, N)` is idempotent — squarifying an already-squarified
(hence `N`-by-`N`) image reproduces it bit for bit — and consequently,
since a successful `save` leaves `tray_img` holding the squarified
96-pixel tray, re-saving the same in-memory pack squarifies that stored
tray to itself, producing the same tray image. -/
theorem squarify_idempotent_resave :
    (∀ (kern : Kern) (im : Img) (N : ℕ), 0 < N → 0 < max im.width im.height →
      squarify kern (squarify kern im N) N = squarify kern im N) ∧
    (∀ (kern : Kern) (enc : ImgFormat → Img → Img) (encSize : ImgFormat → Img → ℕ)
      (p : StickerPack) (arg : Option String) (ow : Bool) (fs : FS),
      p.check = .ok () →
      (ow = true ∨ fs (savePath arg p) = none) →
      0 < max (trayOf p).width (trayOf p).height →
      (p.save kern enc encSize arg ow fs).pack.tray_img
          = some (squarify kern (trayOf p) 96) ∧
        squarify kern (squarify kern (trayOf p) 96) 96
          = squarify kern (trayOf p) 96) := by
  constructor
  · intro kern im N hN hm
    exact squarify_idem kern im N hN hm
  · intro kern enc encSize p arg ow fs hchk hfree hdim
    refine ⟨?_, squarify_idem kern (trayOf p) 96 (by norm_num) hdim⟩
    cases htr : p.tray_img with
    | some t =>
      rw [save_some kern enc encSize p arg ow fs t hchk htr,
        saveCore_not_blocked kern enc encSize p t _ ow fs hfree]
      unfold trayOf
      rw [htr]
    | none =>
      cases hs : p.sticker_imgs with
      | nil =>
        exfalso
        have h := (check_eq_ok_iff p).1 hchk
        rw [hs] at h
        simp at h
      | cons s rest =>
        rw [save_none kern enc encSize p arg ow fs s rest hchk htr hs,
          saveCore_not_blocked kern enc encSize _ s.2 _ ow fs hfree]
        unfold trayOf
        rw [htr, hs]
        rfl

theorem squarify_idempotent_resave_witness :
    squarify kern0 (squarify kern0 imgWide 96) 96 = squarify kern0 imgWide 96 :=
  squarify_idempotent_resave.1 kern0 imgWide 96 (by decide) (by decide)

/-- C9: building a valid pack onto an existing destination path with
`overwrite = false` fails with the destination-exists error, before
anything is written: the filesystem — in particular the pre-existing
file's bytes — is untouched. -/
theorem save_destination_exists (kern : Kern) (enc : ImgFormat → Img → Img)
    (encSize : ImgFormat → Img → ℕ) (p : StickerPack) (arg : Option String)
    (fs : FS) (f : WFile)
    (hchk : p.check = .ok ()) (hex : fs (savePath arg p) = some f) :
    (p.save kern enc encSize arg false fs).res = .error .destinationExists ∧
    (p.save kern enc encSize arg false fs).fs = fs ∧
    (p.save kern enc encSize arg false fs).fs (savePath arg p) = some f := by
  have hsome : (fs (savePath arg p)).isSome = true := by rw [hex]; rfl
  cases htr : p.tray_img with
  | some t =>
    rw [save_some kern enc encSize p arg false fs t hchk htr,
      saveCore_blocked kern enc encSize p t _ fs hsome]
    exact ⟨rfl, rfl, hex⟩
  | none =>
    cases hs : p.sticker_imgs with
    | nil =>
      exfalso
      have h := (check_eq_ok_iff p).1 hchk
      rw [hs] at h
      simp at h
    | cons s rest =>
      rw [save_none kern enc encSize p arg false fs s rest hchk htr hs,
        saveCore_blocked kern enc encSize _ s.2 _ fs hsome]
      exact ⟨rfl, rfl, hex⟩

theorem save_destination_exists_witness :
    (packOk.save kern0 enc0 encSize0 none false
        (fsOf "T.wastickers" (sampleArchive 1))).res = .error .destinationExists ∧
    (packOk.save kern0 enc0 encSize0 none false
        (fsOf "T.wastickers" (sampleArchive 1))).fs = fsOf "T.wastickers" (sampleArchive 1) ∧
    (packOk.save kern0 enc0 encSize0 none false
        (fsOf "T.wastickers" (sampleArchive 1))).fs (savePath none packOk)
      = some (.zipf (sampleArchive 1)) :=
  save_destination_exists kern0 enc0 encSize0 packOk none
    (fsOf "T.wastickers" (sampleArchive 1)) (.zipf (sampleArchive 1)) rfl rfl

/-- C10: `save` never touches `sticker_imgs` (same keys, same order, same
image values) nor `title`, `author` or `file_name`; on every path through
`save` the only pack field it can mutate is `tray_img`. -/
theorem save_frame (kern : Kern) (enc : ImgFormat → Img → Img)
    (encSize : ImgFormat → Img → ℕ) (p : StickerPack) (arg : Option String)
    (ow : Bool) (fs : FS) :
    (p.save kern enc encSize arg ow fs).pack.sticker_imgs = p.sticker_imgs ∧
    (p.save kern enc encSize arg ow fs).pack.title = p.title ∧
    (p.save kern enc encSize arg ow fs).pack.author = p.author ∧
    (p.save kern enc encSize arg ow fs).pack.file_name = p.file_name := by
  unfold StickerPack.save
  split
  · exact ⟨rfl, rfl, rfl, rfl⟩
  · split
    · unfold saveCore
      dsimp only
      split
      · exact ⟨rfl, rfl, rfl, rfl⟩
      · exact ⟨rfl, rfl, rfl, rfl⟩
    · split
      · exact ⟨rfl, rfl, rfl, rfl⟩
      · unfold saveCore
        dsimp only
        split
        · exact ⟨rfl, rfl, rfl, rfl⟩
        · exact ⟨rfl, rfl, rfl, rfl⟩

/-! ## Extension and archive-lookup lemmas -/

theorem endsL_iff (suf l : List Char) :
    endsL suf l = true ↔
      suf.length ≤ l.length ∧ l.drop (l.length - suf.length) = suf := by
  simp [endsL]

theorem exists_of_endsL (suf l : List Char) (h : endsL suf l = true) :
    ∃ pre, l = pre ++ suf := by
  rw [endsL_iff] at h
  refine ⟨l.take (l.length - suf.length), ?_⟩
  conv_lhs => rw [← List.take_append_drop (l.length - suf.length) l]
  rw [h.2]

/-- A name with the (case-sensitive) `.webp` extension does not count as a
`.png` name, even after lowercasing. -/
theorem webp_not_png (l : List Char) (h : endsL webpExtL l = true) :
    endsL pngExtL (lowerL l) = false := by
  obtain ⟨pre, rfl⟩ := exists_of_endsL _ _ h
  have hmap : lowerL (pre ++ webpExtL) = lowerL pre ++ webpExtL := by
    unfold lowerL
    rw [List.map_append]
    rfl
  rw [hmap]
  rw [Bool.eq_false_iff]
  intro hc
  rw [endsL_iff] at hc
  obtain ⟨h1, h2⟩ := hc
  have hlen : (lowerL pre ++ webpExtL).length - pngExtL.length
      = (lowerL pre).length + 1 := by
    rw [List.length_append]
    unfold webpExtL pngExtL
    simp
  rw [hlen] at h2
  have hdrop : (lowerL pre ++ webpExtL).drop ((lowerL pre).length + 1)
      = webpExtL.drop 1 := List.drop_append 1
  rw [hdrop] at h2
  revert h2
  decide

theorem webp_name_ne (nm fixed : String)
    (h : endsL webpExtL nm.data = true) (hf : endsL webpExtL fixed.data = false) :
    nm ≠ fixed := by
  intro he
  subst he
  rw [h] at hf
  cases hf

theorem not_mem_webp_names (stickers : List (String × Img))
    (hweb : ∀ s ∈ stickers, endsL webpExtL s.1.data = true)
    (nm : String) (hnm : endsL webpExtL nm.data = false) :
    nm ∉ stickers.map Prod.fst := by
  intro hmem
  obtain ⟨s, hs, heq⟩ := List.mem_map.1 hmem
  have hw := hweb s hs
  rw [heq, hnm] at hw
  cases hw

/-- With distinct entry names, `zopen` finds the entry's data. -/
theorem zopen_eq_of_mem (z : Zip) (nm : String) (d : FileData)
    (hnd : (z.map Prod.fst).Nodup) (hmem : (nm, d) ∈ z) :
    zopen z nm = some d := by
  induction z with
  | nil => cases hmem
  | cons e rest ih =>
    rw [List.map_cons, List.nodup_cons] at hnd
    obtain ⟨hne, hnd'⟩ := hnd
    unfold zopen
    rw [List.reverse_cons, List.find?_append]
    rcases List.mem_cons.1 hmem with heq | hmem'
    · subst heq
      have hnone : List.find? (fun e => e.1 == nm) rest.reverse = none := by
        rw [List.find?_eq_none]
        intro x hx hbeq
        have hx' : x ∈ rest := List.mem_reverse.1 hx
        have hxeq : x.1 = nm := by simpa using hbeq
        have hmm : x.1 ∈ rest.map Prod.fst := List.mem_map_of_mem Prod.fst hx'
        rw [hxeq] at hmm
        exact hne hmm
      rw [hnone]
      simp
    · have hres := ih hnd' hmem'
      unfold zopen at hres
      rcases hfind : List.find? (fun e => e.1 == nm) rest.reverse with _ | x
      · rw [hfind] at hres; cases hres
      · rw [hfind] at hres
        simp only [Option.map_some'] at hres
        rw [hfind]
        simp [hres]

/-! ## Lemmas about the archive written by `save` -/

theorem stickerEntries_names (kern : Kern) (enc : ImgFormat → Img → Img)
    (encSize : ImgFormat → Img → ℕ) (stickers : List (String × Img)) :
    (stickerEntries kern enc encSize stickers).map Prod.fst
      = stickers.map Prod.fst := by
  unfold stickerEntries
  rw [List.map_map]
  rfl

theorem buildZip_namelist (kern : Kern) (enc : ImgFormat → Img → Img)
    (encSize : ImgFormat → Img → ℕ) (p : StickerPack) (trayN : Img) :
    namelist (buildZip kern enc encSize p trayN)
      = "title.txt" :: "author.txt" :: "tray.png" :: p.sticker_imgs.map Prod.fst := by
  unfold namelist buildZip
  rw [List.map_cons, List.map_cons, List.map_cons, stickerEntries_names]

theorem zopen_buildZip_fixed (kern : Kern) (enc : ImgFormat → Img → Img)
    (encSize : ImgFormat → Img → ℕ) (p : StickerPack) (trayN : Img)
    (hweb : ∀ s ∈ p.sticker_imgs, endsL webpExtL s.1.data = true) :
    zopen (buildZip kern enc encSize p trayN) "title.txt" = some (.text p.title) ∧
    zopen (buildZip kern enc encSize p trayN) "author.txt" = some (.text p.author) ∧
    zopen (buildZip kern enc encSize p trayN) "tray.png"
      = some (.image .png (enc .png trayN) (encSize .png trayN)) := by
  have hnone : ∀ nm : String, endsL webpExtL nm.data = false →
      List.find? (fun e => e.1 == nm)
        (stickerEntries kern enc encSize p.sticker_imgs).reverse = none := by
    intro nm hnm
    rw [List.find?_eq_none]
    intro x hx hbeq
    have hx' := List.mem_reverse.1 hx
    unfold stickerEntries at hx'
    obtain ⟨s, hs, heq⟩ := List.mem_map.1 hx'
    have hxeq : x.1 = nm := by simpa using hbeq
    have hw := hweb s hs
    rw [← heq] at hxeq
    simp only at hxeq
    rw [hxeq, hnm] at hw
    cases hw
  have hrev : (buildZip kern enc encSize p trayN).reverse
      = (stickerEntries kern enc encSize p.sticker_imgs).reverse ++
        [("tray.png", FileData.image .png (enc .png trayN) (encSize .png trayN)),
         ("author.txt", FileData.text p.author),
         ("title.txt", FileData.text p.title)] := by
    unfold buildZip
    rw [List.reverse_cons, List.reverse_cons, List.reverse_cons]
    simp [List.append_assoc]
  refine ⟨?_, ?_, ?_⟩ <;>
    · unfold zopen
      rw [hrev, List.find?_append, hnone _ (by decide)]
      rfl

theorem buildZip_nodup (kern : Kern) (enc : ImgFormat → Img → Img)
    (encSize : ImgFormat → Img → ℕ) (p : StickerPack) (trayN : Img)
    (hweb : ∀ s ∈ p.sticker_imgs, endsL webpExtL s.1.data = true)
    (hnd : (p.sticker_imgs.map Prod.fst).Nodup) :
    ((buildZip kern enc encSize p trayN).map Prod.fst).Nodup := by
  have hn : namelist (buildZip kern enc encSize p trayN)
      = "title.txt" :: "author.txt" :: "tray.png" :: p.sticker_imgs.map Prod.fst :=
    buildZip_namelist kern enc encSize p trayN
  unfold namelist at hn
  rw [hn]
  rw [List.nodup_cons, List.nodup_cons, List.nodup_cons]
  refine ⟨?_, ?_, ?_, hnd⟩
  · intro hmem
    rcases List.mem_cons.1 hmem with h | hmem
    · exact absurd h (by decide)
    rcases List.mem_cons.1 hmem with h | hmem
    · exact absurd h (by decide)
    exact not_mem_webp_names _ hweb _ (by decide) hmem
  · intro hmem
    rcases List.mem_cons.1 hmem with h | hmem
    · exact absurd h (by decide)
    exact not_mem_webp_names _ hweb _ (by decide) hmem
  · exact not_mem_webp_names _ hweb _ (by decide)

theorem zopen_buildZip_sticker (kern : Kern) (enc : ImgFormat → Img → Img)
    (encSize : ImgFormat → Img → ℕ) (p : StickerPack) (trayN : Img)
    (hweb : ∀ s ∈ p.sticker_imgs, endsL webpExtL s.1.data = true)
    (hnd : (p.sticker_imgs.map Prod.fst).Nodup)
    (s : String × Img) (hs : s ∈ p.sticker_imgs) :
    zopen (buildZip kern enc encSize p trayN) s.1
      = some (.image .webp (enc .webp (squarify kern s.2 512))
          (encSize .webp (squarify kern s.2 512))) := by
  apply zopen_eq_of_mem
  · exact buildZip_nodup kern enc encSize p trayN hweb hnd
  · unfold buildZip
    refine List.mem_cons_of_mem _ (List.mem_cons_of_mem _ (List.mem_cons_of_mem _ ?_))
    unfold stickerEntries
    exact List.mem_map_of_mem _ hs

theorem pngCount_buildZip (kern : Kern) (enc : ImgFormat → Img → Img)
    (encSize : ImgFormat → Img → ℕ) (p : StickerPack) (trayN : Img)
    (hweb : ∀ s ∈ p.sticker_imgs, endsL webpExtL s.1.data = true) :
    pngCount (buildZip kern enc encSize p trayN) = 1 := by
  unfold pngCount
  rw [buildZip_namelist]
  rw [List.countP_cons, List.countP_cons, List.countP_cons]
  have h0 : (p.sticker_imgs.map Prod.fst).countP
      (fun nm => endsL pngExtL (lowerL nm.data)) = 0 := by
    rw [List.countP_eq_zero]
    intro nm hmem
    obtain ⟨s, hs, heq⟩ := List.mem_map.1 hmem
    have hw := hweb s hs
    rw [heq] at hw
    simp [webp_not_png nm.data hw]
  rw [h0]
  norm_num [show endsL pngExtL (lowerL ("title.txt" : String).data) = false from by decide,
    show endsL pngExtL (lowerL ("author.txt" : String).data) = false from by decide,
    show endsL pngExtL (lowerL ("tray.png" : String).data) = true from by decide]

theorem webplist_buildZip (kern : Kern) (enc : ImgFormat → Img → Img)
    (encSize : ImgFormat → Img → ℕ) (p : StickerPack) (trayN : Img)
    (hweb : ∀ s ∈ p.sticker_imgs, endsL webpExtL s.1.data = true) :
    webplist (buildZip kern enc encSize p trayN) = p.sticker_imgs.map Prod.fst := by
  unfold webplist
  rw [buildZip_namelist]
  rw [List.filter_cons, List.filter_cons, List.filter_cons]
  rw [if_neg (by decide), if_neg (by decide), if_neg (by decide)]
  rw [List.filter_eq_self]
  intro nm hmem
  obtain ⟨s, hs, heq⟩ := List.mem_map.1 hmem
  rw [← heq]
  exact hweb s hs

/-! ## Validator success on built archives -/

theorem checkStickers_ok (z : Zip) (names : List String)
    (hlook : ∀ nm ∈ names, ∃ im sz, zopen z nm = some (.image .webp im sz) ∧
        im.width = 512 ∧ im.height = 512 ∧ sz < 100 * 1024) :
    checkStickers z names = .ok () := by
  induction names with
  | nil => rfl
  | cons nm rest ih =>
    obtain ⟨im, sz, hz, hw, hh, hsz⟩ := hlook nm (List.mem_cons_self _ _)
    unfold checkStickers
    rw [hz]
    dsimp only
    rw [if_pos rfl, if_pos ⟨hw, hh⟩, if_pos hsz]
    exact ih (fun x hx => hlook x (List.mem_cons_of_mem _ hx))

/-- The validator accepts the archive `save` writes, provided sticker
names carry the `.webp` extension, entry names are distinct, images are
non-degenerate, the codec preserves dimensions and its outputs respect
the byte limits, and the sticker count is in the valid range. -/
theorem check_valid_buildZip (kern : Kern) (enc : ImgFormat → Img → Img)
    (encSize : ImgFormat → Img → ℕ) (p : StickerPack) (t : Img)
    (path : String) (fs' : FS)
    (hfs : fs' path = some (.zipf (buildZip kern enc encSize p (squarify kern t 96))))
    (hsuffix : pySuffix path = ".wastickers")
    (hweb : ∀ s ∈ p.sticker_imgs, endsL webpExtL s.1.data = true)
    (hnd : (p.sticker_imgs.map Prod.fst).Nodup)
    (hsdim : ∀ s ∈ p.sticker_imgs, 0 < max (s.2).width (s.2).height)
    (htdim : 0 < max t.width t.height)
    (hencW : ∀ f im, (enc f im).width = im.width)
    (hencH : ∀ f im, (enc f im).height = im.height)
    (hszP : ∀ im, encSize .png im < 50 * 1024)
    (hszW : ∀ im, encSize .webp im < 100 * 1024)
    (hcnt1 : 1 ≤ p.sticker_imgs.length) (hcnt30 : p.sticker_imgs.length ≤ 30) :
    check_valid_wastickers path fs' = .ok () := by
  unfold check_valid_wastickers
  rw [if_pos hsuffix, hfs]
  dsimp only
  rw [if_pos (pngCount_buildZip kern enc encSize p _ hweb)]
  rw [if_pos (by rw [buildZip_namelist]; simp :
    "tray.png" ∈ namelist (buildZip kern enc encSize p (squarify kern t 96)))]
  have htray : checkTray (buildZip kern enc encSize p (squarify kern t 96)) = .ok () := by
    unfold checkTray
    rw [(zopen_buildZip_fixed kern enc encSize p _ hweb).2.2]
    have hdims := squarify_dims kern t 96 htdim (by norm_num)
    dsimp only
    rw [if_pos rfl, if_pos ⟨by rw [hencW, hdims.1], by rw [hencH, hdims.2]⟩,
      if_pos (hszP _)]
  rw [htray]
  rw [webplist_buildZip kern enc encSize p _ hweb]
  rw [if_pos (by rw [List.length_map]; exact ⟨hcnt1, hcnt30⟩)]
  have hst : checkStickers (buildZip kern enc encSize p (squarify kern t 96))
      (p.sticker_imgs.map Prod.fst) = .ok () := by
    apply checkStickers_ok
    intro nm hmem
    obtain ⟨s, hs, heq⟩ := List.mem_map.1 hmem
    refine ⟨enc .webp (squarify kern s.2 512), encSize .webp (squarify kern s.2 512),
      ?_, ?_, ?_, hszW _⟩
    · rw [← heq]
      exact zopen_buildZip_sticker kern enc encSize p _ hweb hnd s hs
    · rw [hencW]
      exact (squarify_dims kern s.2 512 (hsdim s hs) (by norm_num)).1
    · rw [hencH]
      exact (squarify_dims kern s.2 512 (hsdim s hs) (by norm_num)).2
  rw [hst]
  rw [if_pos (by rw [buildZip_namelist]; simp :
    "title.txt" ∈ namelist (buildZip kern enc encSize p (squarify kern t 96)))]
  rw [if_pos (by rw [buildZip_namelist]; simp :
    "author.txt" ∈ namelist (buildZip kern enc encSize p (squarify kern t 96)))]

/-- C1 (amended): for every `StickerPack` passing the build-time check,
with every sticker entry name carrying the (case-sensitive) `.webp`
extension and names distinct, non-degenerate image dimensions, a
destination base name free of path separators, a free (or overwritable)
destination, and a codec that preserves dimensions and stays within the
per-entry byte limits, `save` succeeds and `check_valid_wastickers`
accepts the archive it wrote. -/
theorem build_then_validate (kern : Kern) (enc : ImgFormat → Img → Img)
    (encSize : ImgFormat → Img → ℕ) (p : StickerPack) (arg : Option String)
    (ow : Bool) (fs : FS)
    (hchk : p.check = .ok ())
    (hweb : ∀ s ∈ p.sticker_imgs, endsL webpExtL s.1.data = true)
    (hnd : (p.sticker_imgs.map Prod.fst).Nodup)
    (hsdim : ∀ s ∈ p.sticker_imgs, 0 < max (s.2).width (s.2).height)
    (htdim : 0 < max (trayOf p).width (trayOf p).height)
    (hencW : ∀ f im, (enc f im).width = im.width)
    (hencH : ∀ f im, (enc f im).height = im.height)
    (hszP : ∀ im, encSize .png im < 50 * 1024)
    (hszW : ∀ im, encSize .webp im < 100 * 1024)
    (hbase0 : (saveBase arg p).data ≠ [])
    (hbase1 : '/' ∉ (saveBase arg p).data)
    (hfree : ow = true ∨ fs (savePath arg p) = none) :
    (p.save kern enc encSize arg ow fs).res = .ok () ∧
    check_valid_wastickers (savePath arg p)
      (p.save kern enc encSize arg ow fs).fs = .ok () := by
  have hcnt := (check_eq_ok_iff p).1 hchk
  have hsuffix : pySuffix (savePath arg p) = ".wastickers" :=
    pySuffix_wastickers (saveBase arg p) hbase0 hbase1
  cases htr : p.tray_img with
  | some t =>
    have htOf : trayOf p = t := by unfold trayOf; rw [htr]
    rw [save_some kern enc encSize p arg ow fs t hchk htr,
      saveCore_not_blocked kern enc encSize p t _ ow fs hfree]
    refine ⟨rfl, ?_⟩
    refine check_valid_buildZip kern enc encSize p t _ _ ?_ hsuffix hweb hnd hsdim
      (htOf ▸ htdim) hencW hencH hszP hszW
      (by have := hcnt.2.2.1; omega) hcnt.2.2.2
    simp
  | none =>
    cases hs : p.sticker_imgs with
    | nil =>
      exfalso
      have h3 := hcnt.2.2.1
      rw [hs] at h3
      simp at h3
    | cons s rest =>
      have htOf : trayOf p = s.2 := by unfold trayOf; rw [htr, hs]; rfl
      rw [save_none kern enc encSize p arg ow fs s rest hchk htr hs,
        saveCore_not_blocked kern enc encSize _ s.2 _ ow fs hfree]
      refine ⟨rfl, ?_⟩
      refine check_valid_buildZip kern enc encSize { p with tray_img := some s.2 } s.2
        _ _ ?_ hsuffix hweb hnd hsdim (htOf ▸ htdim) hencW hencH hszP hszW
        (by show 1 ≤ p.sticker_imgs.length; have := hcnt.2.2.1; omega)
        (by show p.sticker_imgs.length ≤ 30; exact hcnt.2.2.2)
      simp

theorem build_then_validate_witness :
    (packOk.save kern0 enc0 encSize0 none false fs0).res = .ok () ∧
    check_valid_wastickers (savePath none packOk)
      (packOk.save kern0 enc0 encSize0 none false fs0).fs = .ok () :=
  build_then_validate kern0 enc0 encSize0 packOk none false fs0
    rfl (by decide) (by decide) (by decide) (by decide)
    (fun _ _ => rfl) (fun _ _ => rfl)
    (fun _ => by unfold encSize0; norm_num)
    (fun _ => by unfold encSize0; norm_num)
    (by decide) (by decide) (Or.inr rfl)

/-- C1 counterexample: the claim as stated — validation succeeds for
*arbitrary* sticker entry names — is false.  `packBadNames` passes the
build-time check and saves successfully, but its sticker entry `a.png`
makes the archive contain two `.png` entries, so the validator rejects
it. -/
theorem build_then_validate_ctrex :
    (packBadNames.save kern0 enc0 encSize0 none false fs0).res = .ok () ∧
    check_valid_wastickers (savePath none packBadNames)
      (packBadNames.save kern0 enc0 encSize0 none false fs0).fs
      = .error (.pngCountNotOne 2) := by
  exact ⟨rfl, rfl⟩

/-! ## Loading a built archive -/

theorem zOfSave_update (r : Except SaveErr Unit) (P : StickerPack) (fs : FS)
    (path : String) (z : Zip) :
    zOfSave ⟨r, P, fun q => if q = path then some (.zipf z) else fs q⟩ path = z := by
  unfold zOfSave
  simp

theorem from_wastickers_buildZip (kern : Kern) (enc : ImgFormat → Img → Img)
    (encSize : ImgFormat → Img → ℕ) (P : StickerPack) (t : Img) (fname : String)
    (hweb : ∀ s ∈ P.sticker_imgs, endsL webpExtL s.1.data = true)
    (hnd : (P.sticker_imgs.map Prod.fst).Nodup)
    (hsdim : ∀ s ∈ P.sticker_imgs, 0 < max (s.2).width (s.2).height)
    (htdim : 0 < max t.width t.height)
    (hencW : ∀ f im, (enc f im).width = im.width)
    (hencH : ∀ f im, (enc f im).height = im.height) :
    (from_wastickers fname (buildZip kern enc encSize P (squarify kern t 96))).title
        = P.title ∧
    (from_wastickers fname (buildZip kern enc encSize P (squarify kern t 96))).author
        = P.author ∧
    (from_wastickers fname (buildZip kern enc encSize P (squarify kern t 96))).sticker_imgs.map
        Prod.fst = P.sticker_imgs.map Prod.fst ∧
    (∃ t', (from_wastickers fname (buildZip kern enc encSize P (squarify kern t 96))).tray_img
        = some t' ∧ t'.width = 96 ∧ t'.height = 96) ∧
    ∀ s ∈ (from_wastickers fname (buildZip kern enc encSize P (squarify kern t 96))).sticker_imgs,
      (s.2).width = 512 ∧ (s.2).height = 512 := by
  have hfix := zopen_buildZip_fixed kern enc encSize P (squarify kern t 96) hweb
  have hdims := squarify_dims kern t 96 htdim (by norm_num)
  have hwl := webplist_buildZip kern enc encSize P (squarify kern t 96) hweb
  unfold from_wastickers
  dsimp only
  refine ⟨?_, ?_, ?_, ?_, ?_⟩
  · unfold readText
    rw [hfix.1]
  · unfold readText
    rw [hfix.2.1]
  · rw [List.map_map]
    have hcomp : (Prod.fst ∘ fun nm =>
        (nm, (readImage (buildZip kern enc encSize P (squarify kern t 96)) nm).getD
          ⟨0, 0, fun _ _ => bgPix⟩)) = (id : String → String) := rfl
    rw [hcomp, List.map_id]
    exact hwl
  · refine ⟨enc .png (squarify kern t 96), ?_, ?_, ?_⟩
    · unfold readImage
      rw [hfix.2.2]
    · rw [hencW]; exact hdims.1
    · rw [hencH]; exact hdims.2
  · intro s hs
    obtain ⟨nm, hnm, heq⟩ := List.mem_map.1 hs
    have hnm' : nm ∈ P.sticker_imgs.map Prod.fst := by
      rw [← hwl]; exact hnm
    obtain ⟨s₀, hs₀, heq₀⟩ := List.mem_map.1 hnm'
    have hz := zopen_buildZip_sticker kern enc encSize P (squarify kern t 96) hweb hnd s₀ hs₀
    rw [heq₀] at hz
    subst heq
    have hget : (readImage (buildZip kern enc encSize P (squarify kern t 96)) nm).getD
        ⟨0, 0, fun _ _ => bgPix⟩ = enc .webp (squarify kern s₀.2 512) := by
      unfold readImage
      rw [hz]
      rfl
    constructor
    · show ((readImage _ nm).getD _).width = 512
      rw [hget, hencW]
      exact (squarify_dims kern s₀.2 512 (hsdim s₀ hs₀) (by norm_num)).1
    · show ((readImage _ nm).getD _).height = 512
      rw [hget, hencH]
      exact (squarify_dims kern s₀.2 512 (hsdim s₀ hs₀) (by norm_num)).2

/-- C4 (amended): for a valid pack whose sticker names all carry the
`.webp` extension (and are distinct), with non-degenerate image
dimensions and a dimension-preserving codec, loading the archive written
by `save` reproduces the pack's title, author and the sticker entry
names (even in order), with the tray decoded at exactly 96×96 and every
sticker at exactly 512×512. -/
theorem load_after_build (kern : Kern) (enc : ImgFormat → Img → Img)
    (encSize : ImgFormat → Img → ℕ) (p : StickerPack) (arg : Option String)
    (ow : Bool) (fs : FS)
    (hchk : p.check = .ok ())
    (hweb : ∀ s ∈ p.sticker_imgs, endsL webpExtL s.1.data = true)
    (hnd : (p.sticker_imgs.map Prod.fst).Nodup)
    (hsdim : ∀ s ∈ p.sticker_imgs, 0 < max (s.2).width (s.2).height)
    (htdim : 0 < max (trayOf p).width (trayOf p).height)
    (hencW : ∀ f im, (enc f im).width = im.width)
    (hencH : ∀ f im, (enc f im).height = im.height)
    (hfree : ow = true ∨ fs (savePath arg p) = none) :
    (from_wastickers (savePath arg p)
        (zOfSave (p.save kern enc encSize arg ow fs) (savePath arg p))).title = p.title ∧
    (from_wastickers (savePath arg p)
        (zOfSave (p.save kern enc encSize arg ow fs) (savePath arg p))).author = p.author ∧
    (from_wastickers (savePath arg p)
        (zOfSave (p.save kern enc encSize arg ow fs) (savePath arg p))).sticker_imgs.map
          Prod.fst = p.sticker_imgs.map Prod.fst ∧
    (∃ t', (from_wastickers (savePath arg p)
        (zOfSave (p.save kern enc encSize arg ow fs) (savePath arg p))).tray_img
          = some t' ∧ t'.width = 96 ∧ t'.height = 96) ∧
    ∀ s ∈ (from_wastickers (savePath arg p)
        (zOfSave (p.save kern enc encSize arg ow fs) (savePath arg p))).sticker_imgs,
      (s.2).width = 512 ∧ (s.2).height = 512 := by
  have hcnt := (check_eq_ok_iff p).1 hchk
  cases htr : p.tray_img with
  | some t =>
    have htOf : trayOf p = t := by unfold trayOf; rw [htr]
    rw [save_some kern enc encSize p arg ow fs t hchk htr,
      saveCore_not_blocked kern enc encSize p t _ ow fs hfree]
    rw [zOfSave_update]
    exact from_wastickers_buildZip kern enc encSize p t _ hweb hnd hsdim
      (htOf ▸ htdim) hencW hencH
  | none =>
    cases hs : p.sticker_imgs with
    | nil =>
      exfalso
      have h3 := hcnt.2.2.1
      rw [hs] at h3
      simp at h3
    | cons s rest =>
      have htOf : trayOf p = s.2 := by unfold trayOf; rw [htr, hs]; rfl
      rw [save_none kern enc encSize p arg ow fs s rest hchk htr hs,
        saveCore_not_blocked kern enc encSize _ s.2 _ ow fs hfree]
      rw [zOfSave_update, ← hs]
      exact from_wastickers_buildZip kern enc encSize { p with tray_img := some s.2 }
        s.2 (savePath arg p) hweb hnd hsdim (htOf ▸ htdim) hencW hencH

theorem load_after_build_witness :
    (from_wastickers (savePath none packOk)
        (zOfSave (packOk.save kern0 enc0 encSize0 none false fs0)
          (savePath none packOk))).title = packOk.title ∧
    (from_wastickers (savePath none packOk)
        (zOfSave (packOk.save kern0 enc0 encSize0 none false fs0)
          (savePath none packOk))).author = packOk.author ∧
    (from_wastickers (savePath none packOk)
        (zOfSave (packOk.save kern0 enc0 encSize0 none false fs0)
          (savePath none packOk))).sticker_imgs.map Prod.fst
        = packOk.sticker_imgs.map Prod.fst ∧
    (∃ t', (from_wastickers (savePath none packOk)
        (zOfSave (packOk.save kern0 enc0 encSize0 none false fs0)
          (savePath none packOk))).tray_img = some t' ∧ t'.width = 96 ∧ t'.height = 96) ∧
    ∀ s ∈ (from_wastickers (savePath none packOk)
        (zOfSave (packOk.save kern0 enc0 encSize0 none false fs0)
          (savePath none packOk))).sticker_imgs,
      (s.2).width = 512 ∧ (s.2).height = 512 :=
  load_after_build kern0 enc0 encSize0 packOk none false fs0
    rfl (by decide) (by decide) (by decide) (by decide)
    (fun _ _ => rfl) (fun _ _ => rfl) (Or.inr rfl)

/-- C4 counterexample: the claim as stated — over *every* valid pack — is
false.  `packNoExt` is valid and saves successfully, but its sticker
names carry no `.webp` extension, so the loader (which selects entries by
that extension) recovers no sticker at all: the loaded name set differs
from the original. -/
theorem load_after_build_ctrex :
    "a" ∈ packNoExt.sticker_imgs.map Prod.fst ∧
    (packNoExt.save kern0 enc0 encSize0 none false fs0).res = .ok () ∧
    (from_wastickers (savePath none packNoExt)
      (zOfSave (packNoExt.save kern0 enc0 encSize0 none false fs0)
        (savePath none packNoExt))).sticker_imgs.map Prod.fst = [] :=
  ⟨by decide, rfl, rfl⟩

/-! ## The sample container family -/

theorem wa_countP_replicate (p : α → Bool) (n : ℕ) (a : α) :
    (List.replicate n a).countP p = if p a then n else 0 := by
  induction n with
  | zero => simp
  | succ n ih =>
    rw [List.replicate_succ, List.countP_cons, ih]
    by_cases h : p a = true
    · simp [h]
    · simp [h]

theorem wa_filter_replicate_pos (p : α → Bool) (n : ℕ) (a : α) (h : p a = true) :
    (List.replicate n a).filter p = List.replicate n a := by
  rw [List.filter_eq_self]
  intro b hb
  rw [List.eq_of_mem_replicate hb]
  exact h

theorem wa_find?_replicate_none (p : α → Bool) (n : ℕ) (a : α) (h : p a = false) :
    (List.replicate n a).find? p = none := by
  rw [List.find?_eq_none]
  intro x hx
  rw [List.eq_of_mem_replicate hx, h]
  simp

theorem wa_find?_replicate_some (p : α → Bool) (n : ℕ) (a : α)
    (h : p a = true) (hn : 0 < n) :
    (List.replicate n a).find? p = some a := by
  cases n with
  | zero => omega
  | succ n =>
    rw [List.replicate_succ]
    rw [List.find?_cons_of_pos _ h]

theorem sampleArchive_reverse (k : ℕ) : (sampleArchive k).reverse
    = List.replicate k sampleStickerEntry ++
      [sampleTrayEntry, ("author.txt", .text "Author"), ("title.txt", .text "Sample")] := by
  unfold sampleArchive
  rw [List.reverse_append, List.reverse_replicate]
  rfl

theorem zopen_sample_tray (k : ℕ) :
    zopen (sampleArchive k) "tray.png" = some (.image .png trayImg96 4000) := by
  unfold zopen
  rw [sampleArchive_reverse, List.find?_append,
    wa_find?_replicate_none _ _ _ (by decide)]
  rfl

theorem zopen_sample_sticker (k : ℕ) (hk : 0 < k) :
    zopen (sampleArchive k) "sticker.webp" = some (.image .webp stImg512 9000) := by
  unfold zopen
  rw [sampleArchive_reverse, List.find?_append,
    wa_find?_replicate_some _ _ _ (by decide) hk]
  rfl

theorem namelist_sample (k : ℕ) : namelist (sampleArchive k)
    = ["title.txt", "author.txt", "tray.png"] ++ List.replicate k "sticker.webp" := by
  unfold namelist sampleArchive
  rw [List.map_append, List.map_replicate]
  rfl

theorem pngCount_sample (k : ℕ) : pngCount (sampleArchive k) = 1 := by
  unfold pngCount
  rw [namelist_sample, List.countP_append, wa_countP_replicate]
  have h1 : (["title.txt", "author.txt", "tray.png"] : List String).countP
      (fun nm => endsL pngExtL (lowerL nm.data)) = 1 := by decide
  have h2 : endsL pngExtL (lowerL ("sticker.webp" : String).data) = false := by decide
  rw [h1]
  simp [h2]

theorem webplist_sample (k : ℕ) :
    webplist (sampleArchive k) = List.replicate k "sticker.webp" := by
  unfold webplist
  rw [namelist_sample, List.filter_append,
    wa_filter_replicate_pos _ _ _ (by decide)]
  have h : (["title.txt", "author.txt", "tray.png"] : List String).filter
      (fun nm => endsL webpExtL nm.data) = [] := by decide
  rw [h]
  rfl

theorem checkStickers_sample (k m : ℕ) (hk : 0 < k) :
    checkStickers (sampleArchive k) (List.replicate m "sticker.webp") = .ok () := by
  induction m with
  | zero => rfl
  | succ m ih =>
    rw [List.replicate_succ]
    unfold checkStickers
    rw [zopen_sample_sticker k hk]
    dsimp only
    rw [if_pos rfl, if_pos ⟨rfl, rfl⟩, if_pos (by norm_num)]
    exact ih

/-- The validator's verdict on the sample family is decided purely by the
`.webp` entry count. -/
theorem check_valid_sample (k : ℕ) :
    check_valid_wastickers "sample.wastickers" (fsOf "sample.wastickers" (sampleArchive k))
      = if 1 ≤ k ∧ k ≤ 30 then .ok () else .error (.webpCountBad k) := by
  have hfs : fsOf "sample.wastickers" (sampleArchive k) "sample.wastickers"
      = some (.zipf (sampleArchive k)) := by
    unfold fsOf
    rw [if_pos rfl]
  unfold check_valid_wastickers
  rw [if_pos (by decide), hfs]
  dsimp only
  rw [if_pos (pngCount_sample k)]
  rw [if_pos (show "tray.png" ∈ namelist (sampleArchive k) by
    rw [namelist_sample]; simp)]
  have htray : checkTray (sampleArchive k) = .ok () := by
    unfold checkTray
    rw [zopen_sample_tray k]
    dsimp only
    rw [if_pos rfl, if_pos ⟨rfl, rfl⟩, if_pos (by norm_num)]
  rw [htray]
  rw [webplist_sample k, List.length_replicate]
  by_cases hk : 1 ≤ k ∧ k ≤ 30
  · rw [if_pos hk, if_pos hk]
    rw [checkStickers_sample k k (by omega)]
    rw [if_pos (show "title.txt" ∈ namelist (sampleArchive k) by
        rw [namelist_sample]; simp),
      if_pos (show "author.txt" ∈ namelist (sampleArchive k) by
        rw [namelist_sample]; simp)]
  · rw [if_neg hk, if_neg hk]

/-- C5: on containers whose tray, metadata and per-entry sticker checks
all pass, the validator accepts exactly the `.webp` entry counts from 1 to
30 — in particular 1 and 2 pass even though the build-time model check
(`StickerPack.check`) rejects packs with fewer than 3 stickers — and it
rejects counts 0 and 31. -/
theorem validator_sticker_count_bounds :
    (∀ k : ℕ, check_valid_wastickers "sample.wastickers"
        (fsOf "sample.wastickers" (sampleArchive k)) = .ok () ↔ 1 ≤ k ∧ k ≤ 30) ∧
    check_valid_wastickers "sample.wastickers"
      (fsOf "sample.wastickers" (sampleArchive 1)) = .ok () ∧
    check_valid_wastickers "sample.wastickers"
      (fsOf "sample.wastickers" (sampleArchive 2)) = .ok () ∧
    check_valid_wastickers "sample.wastickers"
      (fsOf "sample.wastickers" (sampleArchive 0)) = .error (.webpCountBad 0) ∧
    check_valid_wastickers "sample.wastickers"
      (fsOf "sample.wastickers" (sampleArchive 31)) = .error (.webpCountBad 31) ∧
    packOne.check = .error (.invalidStickerCount 1) := by
  refine ⟨?_, ?_, ?_, ?_, ?_, rfl⟩
  · intro k
    rw [check_valid_sample k]
    by_cases hk : 1 ≤ k ∧ k ≤ 30
    · simp [hk]
    · simp [hk]
  · rw [check_valid_sample 1]; norm_num
  · rw [check_valid_sample 2]; norm_num
  · rw [check_valid_sample 0]; norm_num
  · rw [check_valid_sample 31]; norm_num

theorem validator_sticker_count_bounds_witness :
    check_valid_wastickers "sample.wastickers"
      (fsOf "sample.wastickers" (sampleArchive 2)) = .ok () :=
  (validator_sticker_count_bounds.1 2).2 (by norm_num)

/-! ## The validator as a fail-fast rule chain -/

theorem ff_cons_true (e : VErr) (rest : List (Bool × VErr)) :
    firstFailure ((true, e) :: rest) = firstFailure rest := rfl

theorem ff_cons_false (e : VErr) (rest : List (Bool × VErr)) :
    firstFailure ((false, e) :: rest) = .error e := rfl

theorem ff_append_ok (l₁ l₂ : List (Bool × VErr))
    (h : firstFailure l₁ = .ok ()) :
    firstFailure (l₁ ++ l₂) = firstFailure l₂ := by
  induction l₁ with
  | nil => rfl
  | cons r rest ih =>
    obtain ⟨b, e⟩ := r
    cases b
    · rw [ff_cons_false] at h; cases h
    · rw [List.cons_append, ff_cons_true]
      rw [ff_cons_true] at h
      exact ih h

theorem ff_append_err (l₁ l₂ : List (Bool × VErr)) (e : VErr)
    (h : firstFailure l₁ = .error e) :
    firstFailure (l₁ ++ l₂) = .error e := by
  induction l₁ with
  | nil => cases h
  | cons r rest ih =>
    obtain ⟨b, e'⟩ := r
    cases b
    · rw [ff_cons_false] at h
      rw [List.cons_append, ff_cons_false]
      exact h
    · rw [List.cons_append, ff_cons_true]
      rw [ff_cons_true] at h
      exact ih h

theorem checkTray_eq_rules (z : Zip) : checkTray z = firstFailure (trayRules z) := by
  unfold checkTray trayRules
  cases hzo : zopen z "tray.png" with
  | none => rfl
  | some fd =>
    cases fd with
    | text s => rfl
    | image fmt im sz =>
      by_cases h1 : fmt = .png <;> by_cases h2 : im.width = 96 ∧ im.height = 96 <;>
        by_cases h3 : sz < 50 * 1024 <;>
        simp [h1, h2, h3, firstFailure]

theorem checkStickers_eq_rules (z : Zip) (ws : List String) :
    checkStickers z ws = firstFailure (ws.flatMap (stickerRules z)) := by
  induction ws with
  | nil => rfl
  | cons nm rest ih =>
    rw [List.flatMap_cons]
    simp only [checkStickers]
    cases hzo : zopen z nm with
    | none =>
      have e2 : stickerRules z nm = [(false, .stickerUnreadable nm)] := by
        unfold stickerRules
        rw [hzo]
      rw [e2]
      rfl
    | some fd =>
      cases fd with
      | text s =>
        have e2 : stickerRules z nm = [(false, .stickerUnreadable nm)] := by
          unfold stickerRules
          rw [hzo]
        rw [e2]
        rfl
      | image fmt im sz =>
        have e2 : stickerRules z nm =
            [(decide (fmt = .webp), .stickerWrongFormat nm),
             (decide (im.width = 512 ∧ im.height = 512), .stickerWrongSize nm),
             (decide (sz < 100 * 1024), .stickerTooLarge nm)] := by
          unfold stickerRules
          rw [hzo]
        rw [e2]
        dsimp only
        by_cases h1 : fmt = .webp <;> by_cases h2 : im.width = 512 ∧ im.height = 512 <;>
          by_cases h3 : sz < 100 * 1024 <;>
          simp [h1, h2, h3, firstFailure, ih]

theorem check_valid_eq_rules (path : String) (fs : FS) :
    check_valid_wastickers path fs = firstFailure (ruleList path fs) := by
  unfold check_valid_wastickers ruleList
  by_cases h1 : pySuffix path = ".wastickers"
  · rw [if_pos h1, decide_eq_true h1]
    cases hf : fs path with
    | none => rfl
    | some w =>
      cases w with
      | raw i => rfl
      | zipf z =>
        dsimp only
        rw [ff_cons_true, ff_cons_true]
        by_cases h2 : pngCount z = 1
        · rw [if_pos h2, decide_eq_true h2, ff_cons_true]
          by_cases h3 : "tray.png" ∈ namelist z
          · rw [if_pos h3, decide_eq_true h3, ff_cons_true]
            cases ht : checkTray z with
            | error e =>
              have htr : firstFailure (trayRules z) = .error e := by
                rw [← checkTray_eq_rules z, ht]
              rw [ff_append_err _ _ e htr]
            | ok u =>
              cases u
              have htr : firstFailure (trayRules z) = .ok () := by
                rw [← checkTray_eq_rules z, ht]
              rw [ff_append_ok _ _ htr]
              dsimp only
              by_cases h4 : 1 ≤ (webplist z).length ∧ (webplist z).length ≤ 30
              · rw [if_pos h4, decide_eq_true h4, ff_cons_true]
                cases hst : checkStickers z (webplist z) with
                | error e =>
                  have hsr : firstFailure ((webplist z).flatMap (stickerRules z))
                      = .error e := by
                    rw [← checkStickers_eq_rules z, hst]
                  rw [ff_append_err _ _ e hsr]
                | ok u =>
                  cases u
                  have hsr : firstFailure ((webplist z).flatMap (stickerRules z))
                      = .ok () := by
                    rw [← checkStickers_eq_rules z, hst]
                  rw [ff_append_ok _ _ hsr]
                  dsimp only
                  by_cases h5 : "title.txt" ∈ namelist z
                  · rw [if_pos h5, decide_eq_true h5, ff_cons_true]
                    by_cases h6 : "author.txt" ∈ namelist z
                    · rw [if_pos h6, decide_eq_true h6, ff_cons_true]
                      rfl
                    · rw [if_neg h6, decide_eq_false h6, ff_cons_false]
                  · rw [if_neg h5, decide_eq_false h5, ff_cons_false]
              · rw [if_neg h4, decide_eq_false h4, ff_cons_false]
          · rw [if_neg h3, decide_eq_false h3, ff_cons_false]
        · rw [if_neg h2, decide_eq_false h2, ff_cons_false]
  · rw [if_neg h1, decide_eq_false h1, ff_cons_false]

/-- C3: the validator evaluates its rules in the listed order — extension,
archive, tray count/name, tray format/size/bytes, sticker count then
per-sticker format/size/bytes, metadata files — reporting only the first
violated rule (it equals the fail-fast evaluation of the explicit ordered
rule list); in particular, on any container whose tray and sticker image
checks all pass but which lacks `author.txt`, it reports a
missing-metadata error. -/
theorem validator_order_and_missing_author :
    (∀ (path : String) (fs : FS),
      check_valid_wastickers path fs = firstFailure (ruleList path fs)) ∧
    (∀ (path : String) (z : Zip),
      pySuffix path = ".wastickers" →
      pngCount z = 1 →
      "tray.png" ∈ namelist z →
      checkTray z = .ok () →
      1 ≤ (webplist z).length →
      (webplist z).length ≤ 30 →
      checkStickers z (webplist z) = .ok () →
      "author.txt" ∉ namelist z →
      (check_valid_wastickers path (fsOf path z) = .error .titleMissing ∨
       check_valid_wastickers path (fsOf path z) = .error .authorMissing)) := by
  refine ⟨check_valid_eq_rules, ?_⟩
  intro path z h1 h2 h3 h4 h5 h6 h7 h8
  have hfs : fsOf path z path = some (.zipf z) := by
    unfold fsOf
    rw [if_pos rfl]
  unfold check_valid_wastickers
  rw [if_pos h1, hfs]
  dsimp only
  rw [if_pos h2, if_pos h3, h4]
  dsimp only
  rw [if_pos ⟨h5, h6⟩, h7]
  dsimp only
  by_cases h9 : "title.txt" ∈ namelist z
  · right
    rw [if_pos h9, if_neg h8]
  · left
    rw [if_neg h9]

theorem validator_order_witness :
    check_valid_wastickers "s.wastickers" (fsOf "s.wastickers" sampleNoAuthor)
        = .error .titleMissing ∨
    check_valid_wastickers "s.wastickers" (fsOf "s.wastickers" sampleNoAuthor)
        = .error .authorMissing :=
  validator_order_and_missing_author.2 "s.wastickers" sampleNoAuthor
    (by decide) (by decide) (by decide) rfl (by decide) (by decide) rfl (by decide)
